import Mathlib

/-!
Verification of the payment-email ingestion and reconciliation pipeline of the
repository (src/automation/sync_robot.py and src/pages/6_Payment_Sync.py).

Strings are modelled as `List Char` (Python `str`).  The regular-expression
searches of the source are embedded as executable matchers whose backtracking
behaviour coincides with CPython `re.search` on the concrete patterns of the
source (for these patterns the greedy sub-matchers are deterministic, because
the character classes of adjacent pieces are disjoint; this is argued at each
definition).  The reconciler, dedupe-key construction and payee lookup are
translated line by line from `main` of both files.
-/

namespace PaySync

/-- Python strings are modelled as lists of characters. -/
abbrev Str := List Char

/-- A ledger row: Python's `list` of cell strings (possibly ragged). -/
abbrev Row := List Str

/-- Python's `\s` / `str.strip` whitespace class: space, tab, newline,
carriage return, vertical tab, form feed. -/
def isSpaceC (c : Char) : Bool :=
  c = ' ' || c = '\t' || c = '\n' || c = '\r' || c = '\x0b' || c = '\x0c'

/-- ASCII decimal digit, Python's `\d` on the ASCII texts handled here. -/
def isDigitC (c : Char) : Bool := c.isDigit

/-- Python `str.lower` (ASCII as handled here). -/
def lowerL (s : Str) : Str := s.map Char.toLower

/-- Python `str.upper` (ASCII as handled here). -/
def upperL (s : Str) : Str := s.map Char.toUpper

/-- Python `str.strip()`: remove leading and trailing whitespace. -/
def stripL (s : Str) : Str :=
  ((s.dropWhile isSpaceC).reverse.dropWhile isSpaceC).reverse

/-- Case-sensitive "the first list starts the second" (pattern first). -/
def startsW : Str → Str → Bool
  | [], _ => true
  | _ :: _, [] => false
  | p :: ps, c :: cs => p = c && startsW ps cs

/-- Case-insensitive prefix test (pattern first), modelling `re.IGNORECASE`
literals. -/
def startsWCI : Str → Str → Bool
  | [], _ => true
  | _ :: _, [] => false
  | p :: ps, c :: cs => p.toLower = c.toLower && startsWCI ps cs

/-- Python's substring containment `pat in s` (case-sensitive). -/
def containsSub (pat : Str) : Str → Bool
  | [] => startsW pat []
  | c :: rest => startsW pat (c :: rest) || containsSub pat rest

/-- One step-bounded pass of Python `str.replace(pat, rep)` (all
non-overlapping occurrences, left to right).  `fuel` bounds recursion; with
`fuel = s.length` and a non-empty pattern the scan always completes. -/
def replaceAllGo (pat rep : Str) : Nat → Str → Str
  | 0, s => s
  | _ + 1, [] => []
  | fuel + 1, c :: rest =>
    if pat ≠ [] && startsW pat (c :: rest) then
      rep ++ replaceAllGo pat rep fuel ((c :: rest).drop pat.length)
    else
      c :: replaceAllGo pat rep fuel rest

/-- Python `s.replace(pat, rep)`. -/
def replaceAllL (pat rep s : Str) : Str := replaceAllGo pat rep s.length s

/-! ## Reconciler (src/automation/sync_robot.py `main`, lines 177-212;
src/pages/6_Payment_Sync.py `main`, lines 265-294) -/

/-- A parsed payment candidate (the dict produced by `parse_interac_email`:
fields `date`, `sender`, `amount`). -/
structure Payment where
  date : Str
  sender : Str
  amount : Str
deriving DecidableEq, Repr

/-- Key construction `f"{amt}_{snd}"`. -/
def mkKey (amt snd : Str) : Str := amt ++ '_' :: snd

/-- Ledger-side amount normalisation
`str(row[2]).replace('$','').replace(',','')`. -/
def normAmtLedger (a : Str) : Str :=
  (a.filter (fun c => c ≠ '$')).filter (fun c => c ≠ ',')

/-- Candidate-side amount normalisation `str(p['amount']).replace(',','')`. -/
def normAmtCand (a : Str) : Str := a.filter (fun c => c ≠ ',')

/-- Sender normalisation `str(x).lower().strip()`. -/
def normSnd (s : Str) : Str := stripL (lowerL s)

/-- The dedupe key of a candidate: `f"{p_amt}_{p_snd}"`. -/
def candKey (p : Payment) : Str := mkKey (normAmtCand p.amount) (normSnd p.sender)

/-- Payee ("doctor") lookup of `main`:
`if "TRIPIC" in p['sender'].upper(): doctor = "Dr. Tripic"
 elif "CARTAGENA" in p['sender'].upper(): doctor = "Dr. Cartagena"` else
`"Unknown"`. -/
def doctorFor (snd : Str) : Str :=
  if containsSub "TRIPIC".data (upperL snd) then "Dr. Tripic".data
  else if containsSub "CARTAGENA".data (upperL snd) then "Dr. Cartagena".data
  else "Unknown".data

/-- The appended row `[p['date'], p['sender'], p['amount'], doctor]`. -/
def rowOf (p : Payment) : Row := [p.date, p.sender, p.amount, doctorFor p.sender]

/-- The loose key of a persisted ledger row, guarded by `len(row) > 2`
(indices 1 and 2 only are read by the robot). -/
def rowKey : Row → Option Str
  | _ :: s :: a :: _ => some (mkKey (normAmtLedger a) (normSnd s))
  | _ => none

/-- The rejection set built from the ledger snapshot
(`for row in existing_data[1:]: if len(row) > 2: ... existing_keys.add(key)`).
Sets are modelled as lists with membership. -/
def ledgerKeys (rows : List Row) : List Str := (rows.drop 1).filterMap rowKey

/-- The candidate loop of `main`: skip when the key is already present,
otherwise emit the new row and add its key
(`existing_keys.add(key)  # Prevent internal dupes`). -/
def go (keys : List Str) : List Payment → List Row
  | [] => []
  | p :: rest =>
    if candKey p ∈ keys then go keys rest
    else rowOf p :: go (candKey p :: keys) rest

/-- `reconcile(candidates, snapshot)`: the rows appended by one run. -/
def reconcile (cands : List Payment) (rows : List Row) : List Row :=
  go (ledgerKeys rows) cands

/-- The key set as it stands after the loop has processed a prefix of the
candidate list. -/
def goKeys (keys : List Str) : List Payment → List Str
  | [] => keys
  | p :: rest =>
    if candKey p ∈ keys then goKeys keys rest
    else goKeys (candKey p :: keys) rest

/-- Keys contributed by a list of rows. -/
def rowsKeys (rs : List Row) : List Str := rs.filterMap rowKey

/-! ## Reconciler lemmas -/

theorem go_append (xs : List Payment) (ys : List Payment) :
    ∀ K : List Str, go K (xs ++ ys) = go K xs ++ go (goKeys K xs) ys := by
  induction xs with
  | nil => intro K; simp [go, goKeys]
  | cons p rest ih =>
    intro K
    by_cases h : candKey p ∈ K
    · simp only [List.cons_append, go, goKeys, if_pos h]
      exact ih K
    · simp only [List.cons_append, go, goKeys, if_neg h, List.cons_append]
      exact congrArg (rowOf p :: ·) (ih (candKey p :: K))

theorem rowKey_rowOf (p : Payment) (h : '$' ∉ p.amount) :
    rowKey (rowOf p) = some (candKey p) := by
  have hf : p.amount.filter (fun c => c ≠ '$') = p.amount := by
    apply List.filter_eq_self.mpr
    intro a ha
    simp only [ne_eq, decide_eq_true_eq]
    intro e
    exact h (e ▸ ha)
  have hn : normAmtLedger p.amount = normAmtCand p.amount := by
    unfold normAmtLedger normAmtCand
    rw [hf]
  simp only [rowOf, rowKey, candKey]
  rw [hn]

theorem go_eq_nil (C : List Payment) :
    ∀ K J : List Str, (∀ k, k ∈ K → k ∈ J) → (∀ p ∈ C, '$' ∉ p.amount) →
      (∀ k, k ∈ rowsKeys (go K C) → k ∈ J) → go J C = [] := by
  induction C with
  | nil => intro K J _ _ _; rfl
  | cons p rest ih =>
    intro K J hKJ hAm hR
    by_cases h : candKey p ∈ K
    · have hpJ : candKey p ∈ J := hKJ _ h
      simp only [go, if_pos hpJ]
      refine ih K J hKJ (fun q hq => hAm q (List.mem_cons_of_mem _ hq)) ?_
      intro k hk
      apply hR
      simpa [go, if_pos h] using hk
    · have hrow : rowKey (rowOf p) = some (candKey p) :=
        rowKey_rowOf p (hAm p (List.mem_cons_self _ _))
      have hgo : go K (p :: rest) = rowOf p :: go (candKey p :: K) rest := by
        simp [go, if_neg h]
      have hRk : rowsKeys (go K (p :: rest))
          = candKey p :: rowsKeys (go (candKey p :: K) rest) := by
        rw [hgo]; simp [rowsKeys, List.filterMap_cons, hrow]
      have hpJ : candKey p ∈ J := by
        apply hR; rw [hRk]; exact List.mem_cons_self _ _
      simp only [go, if_pos hpJ]
      refine ih (candKey p :: K) J ?_ (fun q hq => hAm q (List.mem_cons_of_mem _ hq)) ?_
      · intro k hk
        rcases List.mem_cons.mp hk with hk | hk
        · exact hk ▸ hpJ
        · exact hKJ _ hk
      · intro k hk
        apply hR; rw [hRk]; exact List.mem_cons_of_mem _ hk

/-- Claim C1 (amended): reconcile is idempotent for every candidate list whose
amount strings contain no `'$'` character and every non-empty ledger snapshot:
appending the first run's output and re-running yields the empty sequence. -/
theorem reconcile_idempotent_amended (C : List Payment) (L : List Row)
    (hL : L ≠ []) (hAm : ∀ p ∈ C, '$' ∉ p.amount) :
    reconcile C (L ++ reconcile C L) = [] := by
  obtain ⟨x, L0, rfl⟩ : ∃ x L0, L = x :: L0 := by
    cases L with
    | nil => exact absurd rfl hL
    | cons x L0 => exact ⟨x, L0, rfl⟩
  unfold reconcile
  have hKeys : ledgerKeys ((x :: L0) ++ go (ledgerKeys (x :: L0)) C)
      = ledgerKeys (x :: L0) ++ rowsKeys (go (ledgerKeys (x :: L0)) C) := by
    simp [ledgerKeys, rowsKeys, List.filterMap_append]
  rw [hKeys]
  exact go_eq_nil C (ledgerKeys (x :: L0)) _
    (fun k hk => List.mem_append_left _ hk) hAm
    (fun k hk => List.mem_append_right _ hk)

/-- Claim C1 (witness): a concrete candidate against a snapshot holding only
the header row; the second run is empty. -/
theorem reconcile_idempotent_witness :
    reconcile [⟨"01/01/2025 10:00:00".data, "Bob Tripic".data, "1,234.50".data⟩]
      ([["Date".data, "Sender".data, "Amount".data, "Doctor".data]] ++
        reconcile [⟨"01/01/2025 10:00:00".data, "Bob Tripic".data, "1,234.50".data⟩]
          [["Date".data, "Sender".data, "Amount".data, "Doctor".data]]) = [] :=
  reconcile_idempotent_amended _ _ (by decide) (by decide)

/-- Claim C1 (counterexample): on an empty ledger snapshot the claim as stated
fails — the reconciler skips the first snapshot row as a header, so the row
appended by the first run is invisible to the second run and the same
candidate is inserted again. -/
theorem reconcile_idempotent_cex :
    reconcile [⟨"d1".data, "Bob".data, "5.00".data⟩]
      (([] : List Row) ++ reconcile [⟨"d1".data, "Bob".data, "5.00".data⟩] ([] : List Row))
      ≠ [] := by decide

/-! ## Dedupe-key normalisation (C3), zero-sentinel candidates (C4),
payee lookup (C7) -/

/-- Claim C3 (counterexample): two candidates with identical sender and
amounts "100.00" and "100.0" do NOT normalise to the same key — the code
strips only commas (and `'$'` on ledger rows), it never normalises decimal
places — so both candidates are kept, the second is not discarded. -/
theorem dedupe_collision_cex :
    candKey ⟨"d1".data, "John Smith".data, "100.00".data⟩
      ≠ candKey ⟨"d2".data, "John Smith".data, "100.0".data⟩ ∧
    reconcile
      [⟨"d1".data, "John Smith".data, "100.00".data⟩,
       ⟨"d2".data, "John Smith".data, "100.0".data⟩]
      [["Date".data, "Sender".data, "Amount".data, "Doctor".data]]
      = [rowOf ⟨"d1".data, "John Smith".data, "100.00".data⟩,
         rowOf ⟨"d2".data, "John Smith".data, "100.0".data⟩] := by decide

/-- Claim C3 (amended): two candidates whose senders are identical up to
case/surrounding whitespace and whose amount strings are equal after removing
commas (the only normalisation the code applies, e.g. "1,234.50" vs
"1234.50") compute equal DedupeKeys, and in one batch only the first is kept,
the second discarded as a duplicate. -/
theorem dedupe_key_amended :
    (∀ (c1 c2 : Payment) (L : List Row), candKey c1 = candKey c2 →
        candKey c1 ∉ ledgerKeys L → reconcile [c1, c2] L = [rowOf c1]) ∧
    normAmtCand "1,234.50".data = normAmtCand "1234.50".data ∧
    candKey ⟨"d1".data, " John Smith ".data, "1,234.50".data⟩
      = candKey ⟨"d2".data, "JOHN SMITH".data, "1234.50".data⟩ := by
  refine ⟨?_, by decide, by decide⟩
  intro c1 c2 L h12 hL
  have h2 : candKey c2 ∈ candKey c1 :: ledgerKeys L := by
    rw [h12]; exact List.mem_cons_self _ _
  simp only [reconcile, go, if_neg hL, if_pos h2]

/-- Claim C3 (witness): concrete comma-grouped duplicate discarded. -/
theorem dedupe_key_witness :
    reconcile [⟨"d1".data, "Ann".data, "1,234.50".data⟩,
               ⟨"d2".data, "Ann".data, "1234.50".data⟩] []
      = [rowOf ⟨"d1".data, "Ann".data, "1,234.50".data⟩] :=
  dedupe_key_amended.1 _ _ _ (by decide) (by decide)

/-- Claim C4: a candidate whose amount is the zero sentinel "0.00" and whose
key is not in the rejection set (as it stands when the candidate is reached)
is still inserted into the result — zero-amount candidates are never skipped
or silently dropped by the reconciler. -/
theorem zero_amount_not_dropped (C1 C2 : List Payment) (c : Payment) (L : List Row)
    (_hz : c.amount = "0.00".data)
    (hk : candKey c ∉ goKeys (ledgerKeys L) C1) :
    rowOf c ∈ reconcile (C1 ++ c :: C2) L := by
  unfold reconcile
  rw [go_append]
  apply List.mem_append_right
  simp [go, if_neg hk]

/-- Claim C4 (witness): a concrete zero-sentinel candidate is inserted. -/
theorem zero_amount_witness :
    rowOf ⟨"d".data, "Bob".data, "0.00".data⟩ ∈
      reconcile [⟨"d".data, "Bob".data, "0.00".data⟩]
        [["Date".data, "Sender".data, "Amount".data, "Doctor".data]] :=
  zero_amount_not_dropped [] [] _ _ rfl (by decide)

/-- Claim C7: a sender containing "TRIPIC" in any letter case is assigned
exactly "Dr. Tripic"; a sender containing neither known fragment is assigned
exactly "Unknown"; and the row the reconciler inserts for a non-duplicate
candidate carries `doctorFor` of its sender as the payee column. -/
theorem payee_lookup_ok :
    (∀ s : Str, containsSub "TRIPIC".data (upperL s) = true →
        doctorFor s = "Dr. Tripic".data) ∧
    (∀ s : Str, containsSub "TRIPIC".data (upperL s) = false →
        containsSub "CARTAGENA".data (upperL s) = false →
        doctorFor s = "Unknown".data) ∧
    (∀ (c : Payment) (L : List Row), candKey c ∉ ledgerKeys L →
        reconcile [c] L = [[c.date, c.sender, c.amount, doctorFor c.sender]]) := by
  refine ⟨?_, ?_, ?_⟩
  · intro s h; simp [doctorFor, h]
  · intro s h1 h2; simp [doctorFor, h1, h2]
  · intro c L h; simp [reconcile, go, if_neg h, rowOf]

/-- Claim C7 (witness): concrete senders and a concrete insertion. -/
theorem payee_lookup_witness :
    doctorFor "Mr tripic jr".data = "Dr. Tripic".data ∧
    doctorFor "Alice".data = "Unknown".data ∧
    reconcile [⟨"d".data, "x".data, "2.00".data⟩] []
      = [["d".data, "x".data, "2.00".data, doctorFor "x".data]] :=
  ⟨payee_lookup_ok.1 _ (by decide),
   payee_lookup_ok.2.1 _ (by decide) (by decide),
   payee_lookup_ok.2.2 _ _ (by decide)⟩

/-! ## Ragged-row tolerance (C9)

The two `main`s build the rejection set with
`for row in existing_data[1:]: if len(row) > 2: ... row[1] ... row[2]`
(the page additionally reads `row[0]` for the strict key).  The checked
builders below perform every index access through `List.get?`, so a `none`
anywhere models an `IndexError`. -/

/-- Robot rejection-set construction with checked index accesses
(src/automation/sync_robot.py lines 181-187: guard `len(row) > 2`, reads
`row[2]` and `row[1]`). -/
def buildKeysChecked : List Row → Option (List Str)
  | [] => some []
  | r :: rest =>
    if r.length > 2 then
      match r.get? 1, r.get? 2 with
      | some s, some a =>
        (buildKeysChecked rest).map (fun ks => mkKey (normAmtLedger a) (normSnd s) :: ks)
      | _, _ => none
    else buildKeysChecked rest

/-- Page rejection-set construction with checked index accesses
(src/pages/6_Payment_Sync.py lines 268-276: guard `len(row) > 2`, reads
`row[0]`, `row[1]`, `row[2]`; adds the loose key and the strict key
`f"{row[0]}_{amt}_{snd}"`). -/
def buildKeysCheckedPage : List Row → Option (List Str)
  | [] => some []
  | r :: rest =>
    if r.length > 2 then
      match r.get? 0, r.get? 1, r.get? 2 with
      | some d, some s, some a =>
        (buildKeysCheckedPage rest).map (fun ks =>
          mkKey (normAmtLedger a) (normSnd s)
            :: (d ++ '_' :: mkKey (normAmtLedger a) (normSnd s)) :: ks)
      | _, _, _ => none
    else buildKeysCheckedPage rest

theorem row_shape_of_len (r : Row) (h : 2 < r.length) :
    ∃ a b c t, r = a :: b :: c :: t := by
  match r, h with
  | a :: b :: c :: t, _ => exact ⟨a, b, c, t, rfl⟩

/-- Claim C9: building the dedupe rejection set never indexes past a row's
end on any snapshot: the robot builder always succeeds and computes exactly
the keys `reconcile` uses, the page builder always succeeds, and rows with
two or fewer columns are skipped by both. -/
theorem ragged_rows_safe :
    (∀ rows : List Row, buildKeysChecked rows = some (rowsKeys rows)) ∧
    (∀ rows : List Row, (buildKeysCheckedPage rows).isSome = true) ∧
    (∀ (r : Row) (rest : List Row), r.length ≤ 2 →
        buildKeysChecked (r :: rest) = buildKeysChecked rest ∧
        buildKeysCheckedPage (r :: rest) = buildKeysCheckedPage rest) := by
  refine ⟨?_, ?_, ?_⟩
  · intro rows
    induction rows with
    | nil => rfl
    | cons r rest ih =>
      by_cases h : 2 < r.length
      · obtain ⟨a, b, c, t, rfl⟩ := row_shape_of_len r h
        simp [buildKeysChecked, rowsKeys, rowKey, List.filterMap_cons, ih, h]
      · have hk : rowKey r = none := by
          match r, h with
          | [], _ => rfl
          | [_], _ => rfl
          | [_, _], _ => rfl
          | _ :: _ :: _ :: _, h => simp at h
        simp [buildKeysChecked, rowsKeys, List.filterMap_cons, hk, ih, h]
  · intro rows
    induction rows with
    | nil => rfl
    | cons r rest ih =>
      by_cases h : 2 < r.length
      · obtain ⟨a, b, c, t, rfl⟩ := row_shape_of_len r h
        simp only [buildKeysCheckedPage, if_pos h, List.get?]
        obtain ⟨ks, hks⟩ := Option.isSome_iff_exists.mp ih
        rw [hks]; rfl
      · simpa [buildKeysCheckedPage, if_neg h] using ih
  · intro r rest h
    have h' : ¬ 2 < r.length := by omega
    constructor
    · simp [buildKeysChecked, if_neg h']
    · simp [buildKeysCheckedPage, if_neg h']

/-- Claim C9 (witness): a ragged one-column row is skipped and a snapshot
mixing full and ragged rows still builds. -/
theorem ragged_rows_witness :
    buildKeysChecked [["x".data]] = buildKeysChecked [] ∧
    (buildKeysCheckedPage [["a".data, "b".data, "c".data], ["y".data]]).isSome = true :=
  ⟨(ragged_rows_safe.2.2 _ _ (by decide)).1, ragged_rows_safe.2.1 _⟩

/-! ## Amount extraction (C2)

`parse_interac_email` tries four `re.search` patterns in order over the body
text (src/pages/6_Payment_Sync.py lines 158-174, src/automation/sync_robot.py
lines 88-103).  All four share the decimal-number sub-pattern
`\d{1,3}(?:,\d{3})*(?:\.\d{2})`.  For a fixed start position its backtracking
is vacuous: shortening the greedy `\d{1,3}` leaves a digit where `,` or `.`
is required, and dropping a greedy `(?:,\d{3})*` repetition leaves a `,`
where `.` is required, so a greedy deterministic matcher coincides with the
CPython engine, and `re.search` is the search for the leftmost start
position. -/

/-- Greedy matcher for `(?:,\d{3})*`: consumed characters and remainder.
`fuel` bounds recursion; `fuel = cs.length` always suffices (each step
consumes four characters). -/
def groupsGo : Nat → Str → Str × Str
  | 0, cs => ([], cs)
  | n + 1, cs =>
    match cs with
    | c0 :: a :: b :: c :: rest =>
      if c0 = ',' && isDigitC a && isDigitC b && isDigitC c then
        (c0 :: a :: b :: c :: (groupsGo n rest).1, (groupsGo n rest).2)
      else ([], cs)
    | _ => ([], cs)

/-- Matcher for `\d{1,3}(?:,\d{3})*(?:\.\d{2})` at the current position:
the captured text and the remainder. -/
def matchNum (cs : Str) : Option (Str × Str) :=
  let k := min 3 (cs.takeWhile isDigitC).length
  if k = 0 then none
  else
    let gr := groupsGo (cs.drop k).length (cs.drop k)
    match gr.2 with
    | '.' :: a :: b :: r3 =>
      if isDigitC a && isDigitC b then
        some (cs.take k ++ gr.1 ++ '.' :: a :: b :: [], r3)
      else none
    | _ => none

/-- `re.search`: try the position matcher at every start position, leftmost
success wins (including the empty suffix at the end of the text). -/
def searchO (f : Str → Option Str) : Str → Option Str
  | [] => f []
  | c :: rest =>
    match f (c :: rest) with
    | some r => some r
    | none => searchO f rest

/-- Pattern 1 at a position: `\$\s*(\d{1,3}(?:,\d{3})*(?:\.\d{2}))`.
`\s*` is deterministic because whitespace and digits are disjoint. -/
def p1At : Str → Option Str
  | '$' :: rest => (matchNum (rest.dropWhile isSpaceC)).map Prod.fst
  | _ => none

/-- Pattern 2 at a position:
`(\d{1,3}(?:,\d{3})*(?:\.\d{2}))\s*(?:CAD|CDN)` with `re.IGNORECASE`. -/
def p2At (cs : Str) : Option Str :=
  match matchNum cs with
  | some (cap, rest) =>
    let r2 := rest.dropWhile isSpaceC
    if startsWCI "cad".data r2 || startsWCI "cdn".data r2 then some cap else none
  | none => none

/-- Pattern 3 at a position:
`sent you\s+\$?\s*(\d{1,3}(?:,\d{3})*(?:\.\d{2}))` with `re.IGNORECASE`
(`\s+` is one whitespace then `\s*`; the `\s`/`\$`/`\d` classes are
disjoint, so greedy scanning is deterministic). -/
def p3At (cs : Str) : Option Str :=
  if startsWCI "sent you".data cs then
    match cs.drop 8 with
    | c :: t =>
      if isSpaceC c then
        let r2 := t.dropWhile isSpaceC
        let r3 := match r2 with | '$' :: u => u | _ => r2
        (matchNum (r3.dropWhile isSpaceC)).map Prod.fst
      else none
    | [] => none
  else none

/-- Pattern 4 at a position:
`Amount:?\s*\$?\s*(\d{1,3}(?:,\d{3})*(?:\.\d{2}))` with `re.IGNORECASE`.
Note the colon is OPTIONAL in the source regex. -/
def p4At (cs : Str) : Option Str :=
  if startsWCI "amount".data cs then
    let r := cs.drop 6
    let r1 := match r with | ':' :: t => t | _ => r
    let r2 := r1.dropWhile isSpaceC
    let r3 := match r2 with | '$' :: t => t | _ => r2
    (matchNum (r3.dropWhile isSpaceC)).map Prod.fst
  else none

/-- The amount extraction of `parse_interac_email`: the four searches in
order, first match wins, sentinel `"0.00"` when none matches. -/
def parse_amount (text : Str) : Str :=
  match searchO p1At text with
  | some cap => cap
  | none =>
    match searchO p2At text with
    | some cap => cap
    | none =>
      match searchO p3At text with
      | some cap => cap
      | none =>
        match searchO p4At text with
        | some cap => cap
        | none => "0.00".data

/-- Does the text contain a substring matched by one of the four source
patterns? -/
def amountShapePresent (t : Str) : Bool :=
  (searchO p1At t).isSome || (searchO p2At t).isSome ||
  (searchO p3At t).isSome || (searchO p4At t).isSome

/-- Modelled from the spec: the spec's fourth accepted shape is the literal
`"Amount:"` (mandatory colon) followed by optional `$` and the decimal;
this matcher differs from the source's `p4At` only in requiring the colon. -/
def specP4At (cs : Str) : Option Str :=
  if startsWCI "amount:".data cs then
    let r := cs.drop 7
    let r2 := r.dropWhile isSpaceC
    let r3 := match r2 with | '$' :: t => t | _ => r2
    (matchNum (r3.dropWhile isSpaceC)).map Prod.fst
  else none

/-- Modelled from the spec: a substring of one of the four accepted amount
shapes as the claim words them (shape four with a mandatory colon). -/
def specAmountShapePresent (t : Str) : Bool :=
  (searchO p1At t).isSome || (searchO p2At t).isSome ||
  (searchO p3At t).isSome || (searchO specP4At t).isSome

/-- "Exactly two fraction digits": the string is some dot-free prefix
followed by `'.'` and exactly two digits. -/
def twoFrac (s : Str) : Prop :=
  ∃ pre a b, s = pre ++ ['.', a, b] ∧ isDigitC a = true ∧ isDigitC b = true ∧
    '.' ∉ pre

/-- Numeric value of a captured amount string in cents (commas ignored). -/
def amountCents (s : Str) : Option Nat :=
  let t := s.filter (fun c => c ≠ ',')
  let intPart := t.takeWhile (fun c => c ≠ '.')
  match t.dropWhile (fun c => c ≠ '.') with
  | '.' :: a :: b :: [] =>
    if intPart ≠ [] && intPart.all isDigitC && isDigitC a && isDigitC b then
      some ((intPart.foldl (fun n c => n * 10 + (c.toNat - 48)) 0) * 100
        + (a.toNat - 48) * 10 + (b.toNat - 48))
    else none
  | _ => none

/-! ### Shape lemmas for the captured group -/

theorem take_pred (p : Char → Bool) :
    ∀ (cs : Str) (k : Nat), k ≤ (cs.takeWhile p).length →
      ∀ c ∈ cs.take k, p c = true := by
  intro cs
  induction cs with
  | nil => intro k _ c hc; simp at hc
  | cons x xs ih =>
    intro k hk c hc
    cases k with
    | zero => simp at hc
    | succ j =>
      by_cases hx : p x
      · rw [List.takeWhile_cons_of_pos hx] at hk
        simp only [List.take_succ_cons, List.mem_cons] at hc
        rcases hc with rfl | hc
        · exact hx
        · exact ih j (Nat.le_of_succ_le_succ hk) c hc
      · rw [List.takeWhile_cons_of_neg hx] at hk
        simp at hk

theorem groupsGo_no_dot : ∀ (n : Nat) (cs : Str), '.' ∉ (groupsGo n cs).1 := by
  intro n
  induction n with
  | zero => intro cs; simp [groupsGo]
  | succ n ih =>
    intro cs
    match cs with
    | [] => simp [groupsGo]
    | [c0] => simp [groupsGo]
    | [c0, c1] => simp [groupsGo]
    | [c0, c1, c2] => simp [groupsGo]
    | c0 :: a :: b :: c :: rest =>
      by_cases hcond : (c0 = ',' && isDigitC a && isDigitC b && isDigitC c) = true
      · simp only [groupsGo, if_pos hcond]
        simp only [Bool.and_eq_true, decide_eq_true_eq] at hcond
        obtain ⟨⟨⟨hc0, ha⟩, hb⟩, hc⟩ := hcond
        intro hmem
        simp only [List.mem_cons] at hmem
        rcases hmem with h | h | h | h | h
        · rw [hc0] at h; exact absurd h (by decide)
        · rw [← h] at ha; exact absurd ha (by decide)
        · rw [← h] at hb; exact absurd hb (by decide)
        · rw [← h] at hc; exact absurd hc (by decide)
        · exact ih rest h
      · simp only [groupsGo]
        rw [if_neg hcond]
        simp

theorem matchNum_shape (cs cap rest : Str) (h : matchNum cs = some (cap, rest)) :
    twoFrac cap := by
  simp only [matchNum] at h
  by_cases hk : min 3 (cs.takeWhile isDigitC).length = 0
  · rw [if_pos hk] at h; simp at h
  · rw [if_neg hk] at h
    split at h
    · rename_i a b r3 heq
      split at h
      · rename_i hd
        simp only [Bool.and_eq_true] at hd
        rw [Option.some_inj] at h
        have hcap : cap = (cs.take (min 3 (cs.takeWhile isDigitC).length) ++
            (groupsGo (cs.drop (min 3 (cs.takeWhile isDigitC).length)).length
              (cs.drop (min 3 (cs.takeWhile isDigitC).length))).1) ++ ['.', a, b] := by
          have hfst := congrArg Prod.fst h
          simp only at hfst
          rw [← hfst, List.append_assoc]
        refine ⟨_, a, b, hcap, hd.1, hd.2, ?_⟩
        intro hmem
        rcases List.mem_append.mp hmem with hmem | hmem
        · have := take_pred isDigitC cs (min 3 (cs.takeWhile isDigitC).length)
            (Nat.min_le_right _ _) '.' hmem
          exact absurd this (by decide)
        · exact groupsGo_no_dot _ _ hmem
      · simp at h
    · simp at h

theorem searchO_some (f : Str → Option Str) :
    ∀ (t cap : Str), searchO f t = some cap → ∃ s, f s = some cap := by
  intro t
  induction t with
  | nil => intro cap h; exact ⟨[], h⟩
  | cons c rest ih =>
    intro cap h
    simp only [searchO] at h
    split at h
    · rename_i heq
      exact ⟨c :: rest, heq.trans h⟩
    · exact ih cap h

theorem p1At_shape (cs cap : Str) (h : p1At cs = some cap) : twoFrac cap := by
  unfold p1At at h
  split at h
  · simp only [Option.map_eq_some'] at h
    obtain ⟨⟨cap', r'⟩, hm, rfl⟩ := h
    exact matchNum_shape _ _ _ hm
  · simp at h

theorem p2At_shape (cs cap : Str) (h : p2At cs = some cap) : twoFrac cap := by
  simp only [p2At] at h
  split at h
  · rename_i cap' r' heq
    split at h
    · rw [Option.some_inj] at h
      exact h ▸ matchNum_shape _ _ _ heq
    · simp at h
  · simp at h

theorem p3At_shape (cs cap : Str) (h : p3At cs = some cap) : twoFrac cap := by
  simp only [p3At] at h
  split at h
  · split at h
    · rename_i c t heq
      split at h
      · simp only [Option.map_eq_some'] at h
        obtain ⟨⟨cap', r'⟩, hm, rfl⟩ := h
        exact matchNum_shape _ _ _ hm
      · simp at h
    · simp at h
  · simp at h

theorem p4At_shape (cs cap : Str) (h : p4At cs = some cap) : twoFrac cap := by
  simp only [p4At] at h
  split at h
  · simp only [Option.map_eq_some'] at h
    obtain ⟨⟨cap', r'⟩, hm, rfl⟩ := h
    exact matchNum_shape _ _ _ hm
  · simp at h

/-- Claim C2 (amended): with the four shapes read off the source regexes
(in particular the colon after "Amount" is optional), a body containing a
match of one of them, tried in order with the first match winning, yields a
captured decimal with exactly two fraction digits; a body matching none
yields the zero sentinel "0.00".  The spec's examples evaluate to the stated
numeric values (in cents). -/
theorem amount_extraction_amended :
    (∀ t : Str, amountShapePresent t = true → twoFrac (parse_amount t)) ∧
    (∀ t : Str, amountShapePresent t = false → parse_amount t = "0.00".data) ∧
    parse_amount "Hi, you received $1,234.50 from A and B.".data = "1,234.50".data ∧
    amountCents "1,234.50".data = some 123450 ∧
    parse_amount "You were sent 910.00 CAD today".data = "910.00".data ∧
    amountCents "910.00".data = some 91000 ∧
    parse_amount "Amount: 75.00 was deposited".data = "75.00".data ∧
    amountCents "75.00".data = some 7500 ∧
    parse_amount "no money here".data = "0.00".data := by
  refine ⟨?_, ?_, by decide, by decide, by decide, by decide, by decide, by decide, by decide⟩
  · intro t ht
    unfold parse_amount
    cases h1 : searchO p1At t with
    | some cap =>
      obtain ⟨s, hs⟩ := searchO_some _ _ _ h1
      exact p1At_shape _ _ hs
    | none =>
      cases h2 : searchO p2At t with
      | some cap =>
        obtain ⟨s, hs⟩ := searchO_some _ _ _ h2
        exact p2At_shape _ _ hs
      | none =>
        cases h3 : searchO p3At t with
        | some cap =>
          obtain ⟨s, hs⟩ := searchO_some _ _ _ h3
          exact p3At_shape _ _ hs
        | none =>
          cases h4 : searchO p4At t with
          | some cap =>
            obtain ⟨s, hs⟩ := searchO_some _ _ _ h4
            exact p4At_shape _ _ hs
          | none =>
            exfalso
            simp [amountShapePresent, h1, h2, h3, h4] at ht
  · intro t ht
    simp only [amountShapePresent, Bool.or_eq_false_iff] at ht
    have toNone : ∀ o : Option Str, o.isSome = false → o = none := by
      intro o ho; cases o with
      | none => rfl
      | some v => simp at ho
    unfold parse_amount
    rw [toNone _ ht.1.1.1, toNone _ ht.1.1.2, toNone _ ht.1.2, toNone _ ht.2]

/-- Claim C2 (witness): the general clauses applied at concrete bodies. -/
theorem amount_extraction_witness :
    twoFrac (parse_amount "pay $12.34 now".data) ∧
    parse_amount "nothing".data = "0.00".data :=
  ⟨amount_extraction_amended.1 _ (by decide),
   amount_extraction_amended.2.1 _ (by decide)⟩

/-- Claim C2 (counterexample): the body "Total Amount 75.00 due" contains no
substring of any of the four shapes as the claim words them (there is no
"$", no currency code, no "sent you", and no "Amount:" with a colon), yet
the extraction returns "75.00", not the zero sentinel — the source's fourth
regex `Amount:?` makes the colon optional. -/
theorem amount_pattern_cex :
    specAmountShapePresent "Total Amount 75.00 due".data = false ∧
    parse_amount "Total Amount 75.00 due".data = "75.00".data ∧
    "75.00".data ≠ "0.00".data := by decide

/-! ## Sender extraction (C6, C10)

`re.search(r"received \$[\d\.,]+ from (.*?) and", text, re.IGNORECASE)` on
the body, retried on the subject, then `.strip()` and the "Interac" cleanup
(src/pages/6_Payment_Sync.py lines 178-186, src/automation/sync_robot.py
lines 106-111).  `[\d\.,]+` is greedy but deterministic (a shorter match
leaves a class character where the literal space of " from " is required);
the lazy `(.*?)` takes the shortest capture, none of whose characters may be
a newline, after which " and" follows (case-insensitively). -/

/-- The character class `[\d\.,]`. -/
def isAmtC (c : Char) : Bool := isDigitC c || c = '.' || c = ','

/-- The lazy capture `(.*?)` followed by the literal ` and` under
`re.IGNORECASE`: the shortest newline-free prefix after which " and"
follows. -/
def lazyCapture (cs : Str) : Option Str :=
  if startsWCI " and".data cs then some []
  else
    match cs with
    | [] => none
    | c :: rest =>
      if c = '\n' then none
      else (lazyCapture rest).map (fun g => c :: g)

/-- The sender pattern at one start position. -/
def senderAt (cs : Str) : Option Str :=
  if startsWCI "received $".data cs then
    let r := cs.drop 10
    if (r.takeWhile isAmtC) = [] then none
    else
      let r2 := r.dropWhile isAmtC
      if startsWCI " from ".data r2 then lazyCapture (r2.drop 6) else none
  else none

/-- Body first, subject as fallback. -/
def senderRaw (body subject : Str) : Option Str :=
  match searchO senderAt body with
  | some g => some g
  | none => searchO senderAt subject

/-- The "Interac" cleanup:
`if "Interac" in sender: sender = sender.replace("Interac", "").strip()`. -/
def cleanSender (nm : Str) : Str :=
  if containsSub "Interac".data nm then stripL (replaceAllL "Interac".data [] nm)
  else nm

/-- The sender extraction of `parse_interac_email`:
`sender = sender_match.group(1).strip() if sender_match else "Unknown"`
followed by the cleanup. -/
def extract_sender (body subject : Str) : Str :=
  match senderRaw body subject with
  | some g => cleanSender (stripL g)
  | none => "Unknown".data

/-- Modelled from the claim's wording for C10: the prefix of a name before
its first occurrence of a (case-sensitive) token. -/
def prefixBefore (pat : Str) : Str → Str
  | [] => []
  | c :: rest => if startsW pat (c :: rest) then [] else c :: prefixBefore pat rest

/-- Claim C6: the sender is the capture of the "received $… from … and"
phrase on the body, retried on the subject, "Unknown" when neither matches;
the capture is stripped and, when it contains the literal token "Interac",
every occurrence is removed and surrounding whitespace trimmed, so
"Interac John Smith" cleans to "John Smith". -/
theorem sender_extraction_ok :
    (∀ b s cap : Str, searchO senderAt b = some cap →
        extract_sender b s = cleanSender (stripL cap)) ∧
    (∀ b s cap : Str, searchO senderAt b = none → searchO senderAt s = some cap →
        extract_sender b s = cleanSender (stripL cap)) ∧
    (∀ b s : Str, searchO senderAt b = none → searchO senderAt s = none →
        extract_sender b s = "Unknown".data) ∧
    cleanSender "Interac John Smith".data = "John Smith".data ∧
    extract_sender "You received $5.00 from Interac John Smith and deposited it.".data
      [] = "John Smith".data := by
  refine ⟨?_, ?_, ?_, by decide, by decide⟩
  · intro b s cap h; simp [extract_sender, senderRaw, h]
  · intro b s cap h1 h2; simp [extract_sender, senderRaw, h1, h2]
  · intro b s h1 h2; simp [extract_sender, senderRaw, h1, h2]

/-- Claim C6 (witness): the body clause applied at a concrete body. -/
theorem sender_extraction_witness :
    extract_sender "You received $5.00 from Interac Bob and b".data "subj".data
      = cleanSender (stripL "Interac Bob".data) :=
  sender_extraction_ok.1 _ _ _ (by decide)

/-- Claim C10 (amended): the non-greedy capture is the shortest newline-free
prefix of the text after "from " at whose end the literal " and" follows
case-insensitively — not necessarily the prefix before the first " and "
with a trailing space; the claim's own example still holds: a sender named
"John and Mary Smith" is extracted as "John". -/
theorem sender_lazy_amended :
    (∀ cs cap : Str, lazyCapture cs = some cap →
        cap = cs.take cap.length ∧
        startsWCI " and".data (cs.drop cap.length) = true ∧
        (∀ j, j < cap.length → startsWCI " and".data (cs.drop j) = false) ∧
        '\n' ∉ cap) ∧
    extract_sender "You received $5.00 from John and Mary Smith and deposited".data
      [] = "John".data := by
  refine ⟨?_, by decide⟩
  intro cs
  induction cs with
  | nil =>
    intro cap h
    simp only [lazyCapture] at h
    split at h
    · rename_i hs
      exact absurd hs (by decide)
    · simp at h
  | cons c rest ih =>
    intro cap h
    simp only [lazyCapture] at h
    split at h
    · rename_i hs
      rw [Option.some_inj] at h
      subst h
      refine ⟨rfl, by simpa using hs, ?_, by simp⟩
      intro j hj; simp at hj
    · rename_i hs
      split at h
      · simp at h
      · rename_i hnl
        simp only [Option.map_eq_some'] at h
        obtain ⟨g, hg, rfl⟩ := h
        obtain ⟨h1, h2, h3, h4⟩ := ih g hg
        refine ⟨?_, ?_, ?_, ?_⟩
        · simp only [List.length_cons, List.take_succ_cons]
          exact congrArg (c :: ·) h1
        · simpa using h2
        · intro j hj
          cases j with
          | zero => simpa using Bool.of_not_eq_true hs
          | succ i =>
            simp only [List.length_cons, Nat.succ_lt_succ_iff] at hj
            simpa using h3 i hj
        · intro hmem
          rcases List.mem_cons.mp hmem with h | h
          · exact hnl h.symm
          · exact h4 h

/-- Claim C10 (witness): the lazy-capture characterisation applied at a
concrete text. -/
theorem sender_lazy_witness :
    "John".data = ("John and co".data).take ("John".data).length ∧
    startsWCI " and".data (("John and co".data).drop ("John".data).length) = true :=
  ⟨(sender_lazy_amended.1 _ _ (by decide)).1,
   (sender_lazy_amended.1 _ _ (by decide)).2.1⟩

/-- Claim C10 (counterexample): for the sender name "John Anderson and Mary"
the claim predicts the prefix before the first " and " token, namely
"John Anderson", but the case-insensitive " and" boundary already stops
inside "Anderson" and the code extracts "John". -/
theorem sender_lazy_cex :
    extract_sender
      "You received $5.00 from John Anderson and Mary and deposited it".data []
      = "John".data ∧
    prefixBefore " and ".data "John Anderson and Mary".data = "John Anderson".data ∧
    "John".data ≠ "John Anderson".data := by decide

/-! ## Timestamps (C5)

The robot (src/automation/sync_robot.py lines 113-116) renders
`datetime.fromtimestamp(int(msg['internalDate']) / 1000)` with
`strftime("%d/%m/%Y %H:%M:%S")`.  The page
(src/pages/6_Payment_Sync.py lines 122-129, 190) instead parses the `Date`
header with `strptime(date_str[:25].strip(), "%a, %d %b %Y %H:%M:%S")`,
falling back to `datetime.now()` on failure, and never reads
`internalDate`.  The epoch conversion is modelled at a fixed (UTC) offset;
`strptime` is modelled for this format string following the CPython
`_strptime` regexes (1-2 digit day/hour/minute/second fields with their
range checks, case-insensitive weekday and month names, and the
"unconverted data remains" check). -/

/-- A wall-clock date-time. -/
structure DT where
  year : Nat
  month : Nat
  day : Nat
  hour : Nat
  minute : Nat
  second : Nat
deriving DecidableEq, Repr

/-- Zero-padded decimal rendering to `w` digits. -/
def padNum (w n : Nat) : Str :=
  let ds := Nat.toDigits 10 n
  List.replicate (w - ds.length) '0' ++ ds

/-- `strftime("%d/%m/%Y %H:%M:%S")`. -/
def fmtDT (d : DT) : Str :=
  padNum 2 d.day ++ '/' :: padNum 2 d.month ++ '/' :: padNum 4 d.year ++
    ' ' :: padNum 2 d.hour ++ ':' :: padNum 2 d.minute ++ ':' :: padNum 2 d.second

/-- `datetime.fromtimestamp` at a fixed zero offset (civil-from-days). -/
def civilFromEpoch (sec : Nat) : DT :=
  let days := sec / 86400
  let rem := sec % 86400
  let z := days + 719468
  let era := z / 146097
  let doe := z % 146097
  let yoe := (doe - doe / 1460 + doe / 36524 - doe / 146096) / 365
  let y := yoe + era * 400
  let doy := doe - (365 * yoe + yoe / 4 - yoe / 100)
  let mp := (5 * doy + 2) / 153
  let d := doy - (153 * mp + 2) / 5 + 1
  let m := if mp < 10 then mp + 3 else mp - 9
  ⟨(if m ≤ 2 then y + 1 else y), m, d, rem / 3600, rem % 3600 / 60, rem % 60⟩

/-- Digit value of an ASCII digit. -/
def digitVal (c : Char) : Nat := c.toNat - 48

/-- `%d`/`%H`/`%M`/`%S`: one or two digits, two preferred. -/
def readNat2 : Str → Option (Nat × Str)
  | a :: b :: r =>
    if isDigitC a then
      if isDigitC b then some (digitVal a * 10 + digitVal b, r)
      else some (digitVal a, b :: r)
    else none
  | [a] => if isDigitC a then some (digitVal a, []) else none
  | [] => none

/-- A mandatory whitespace separator (then any further whitespace). -/
def skipSpaces1 : Str → Option Str
  | c :: r => if isSpaceC c then some (r.dropWhile isSpaceC) else none
  | [] => none

/-- `%Y`: exactly four digits. -/
def read4Digits : Str → Option (Nat × Str)
  | a :: b :: c :: d :: r =>
    if isDigitC a && isDigitC b && isDigitC c && isDigitC d then
      some (digitVal a * 1000 + digitVal b * 100 + digitVal c * 10 + digitVal d, r)
    else none
  | _ => none

/-- `%a`: abbreviated weekday name, case-insensitive (not cross-checked
against the date, as in CPython). -/
def isWeekdayName (w : Str) : Bool :=
  let wl := lowerL w
  wl = "mon".data || wl = "tue".data || wl = "wed".data || wl = "thu".data ||
  wl = "fri".data || wl = "sat".data || wl = "sun".data

/-- `%b`: abbreviated month name, case-insensitive. -/
def monthFromName (m : Str) : Option Nat :=
  let ml := lowerL m
  if ml = "jan".data then some 1 else if ml = "feb".data then some 2
  else if ml = "mar".data then some 3 else if ml = "apr".data then some 4
  else if ml = "may".data then some 5 else if ml = "jun".data then some 6
  else if ml = "jul".data then some 7 else if ml = "aug".data then some 8
  else if ml = "sep".data then some 9 else if ml = "oct".data then some 10
  else if ml = "nov".data then some 11 else if ml = "dec".data then some 12
  else none

/-- Gregorian month length, for the `datetime` constructor's validation. -/
def daysInMonth (y m : Nat) : Nat :=
  if m = 2 then (if y % 4 = 0 && (y % 100 ≠ 0 || y % 400 = 0) then 29 else 28)
  else if m = 4 || m = 6 || m = 9 || m = 11 then 30
  else 31

/-- `datetime.strptime(date_str[:25].strip(), "%a, %d %b %Y %H:%M:%S")`,
`None` modelling the `ValueError` caught by the page's `except`.  The
`_strptime` regex admits seconds 60-61, but the `datetime` constructor then
rejects them (second must be in 0..59), as it rejects out-of-range days;
both constructor checks are part of the failure condition here. -/
def parseHeaderDate (s : Str) : Option DT :=
  let t := stripL (s.take 25)
  if isWeekdayName (t.take 3) then
    match t.drop 3 with
    | ',' :: r0 =>
      match skipSpaces1 r0 with
      | some r1 =>
        match readNat2 r1 with
        | some (day, r2) =>
          match skipSpaces1 r2 with
          | some r3 =>
            match monthFromName (r3.take 3) with
            | some mon =>
              match skipSpaces1 (r3.drop 3) with
              | some r4 =>
                match read4Digits r4 with
                | some (yr, r5) =>
                  match skipSpaces1 r5 with
                  | some r6 =>
                    match readNat2 r6 with
                    | some (hh, ':' :: r7) =>
                      match readNat2 r7 with
                      | some (mm, ':' :: r8) =>
                        match readNat2 r8 with
                        | some (ss, []) =>
                          if 1 ≤ yr ∧ 1 ≤ day ∧ day ≤ daysInMonth yr mon ∧
                              hh ≤ 23 ∧ mm ≤ 59 ∧ ss ≤ 59 then
                            some ⟨yr, mon, day, hh, mm, ss⟩
                          else none
                        | _ => none
                      | _ => none
                    | _ => none
                  | none => none
                | none => none
              | none => none
            | none => none
          | none => none
        | none => none
      | none => none
    | _ => none
  else none

/-- The robot record's `date` field: internal timestamp (milliseconds)
rendered as `DD/MM/YYYY HH:MM:SS`. -/
def robotDate (internalMs : Nat) : Str := fmtDT (civilFromEpoch (internalMs / 1000))

/-- The page record's `date` field: computed from the `Date` header string
and the current processing time only — the message's internal timestamp is
not consulted (hence the ignored argument). -/
def pageRecordDate (dateStr : Str) (_internalMs : Nat) (now : DT) : Str :=
  fmtDT ((parseHeaderDate dateStr).getD now)

/-- Claim C5 (counterexample): for a message whose `Date` header reads
23 Dec 2025 18:20:00 but whose internal delivery timestamp is the epoch
origin, the page parser renders the header-derived time, not the
internal-timestamp-derived one — the header is NOT overridden by the
provider's internal timestamp. -/
theorem timestamp_source_cex :
    pageRecordDate "Tue, 23 Dec 2025 18:20:00 -0500".data 0 ⟨2026, 1, 1, 0, 0, 0⟩
      = "23/12/2025 18:20:00".data ∧
    robotDate 0 = "01/01/1970 00:00:00".data ∧
    pageRecordDate "Tue, 23 Dec 2025 18:20:00 -0500".data 0 ⟨2026, 1, 1, 0, 0, 0⟩
      ≠ robotDate 0 := by decide

/-- Claim C5 (amended): the scheduled robot derives the timestamp from the
provider's internal delivery timestamp; the interactive page derives it from
the header-parsed date string and falls back to the current processing time
on any parse failure, never aborting the record; both render the fixed
format DD/MM/YYYY HH:MM:SS. -/
theorem timestamp_amended :
    (∀ (dateStr : Str) (ms : Nat) (now d : DT), parseHeaderDate dateStr = some d →
        pageRecordDate dateStr ms now = fmtDT d) ∧
    (∀ (dateStr : Str) (ms : Nat) (now : DT), parseHeaderDate dateStr = none →
        pageRecordDate dateStr ms now = fmtDT now) ∧
    (∀ ms : Nat, robotDate ms = fmtDT (civilFromEpoch (ms / 1000))) := by
  refine ⟨?_, ?_, fun ms => rfl⟩
  · intro dateStr ms now d h; simp [pageRecordDate, h]
  · intro dateStr ms now h; simp [pageRecordDate, h]

/-- Claim C5 (witness): header parse success and fallback at concrete
inputs. -/
theorem timestamp_witness :
    pageRecordDate "Tue, 23 Dec 2025 18:20:00 -0500".data 0 ⟨2026, 1, 1, 0, 0, 0⟩
      = fmtDT ⟨2025, 12, 23, 18, 20, 0⟩ ∧
    pageRecordDate "garbage".data 0 ⟨2026, 1, 1, 0, 0, 0⟩
      = fmtDT ⟨2026, 1, 1, 0, 0, 0⟩ :=
  ⟨timestamp_amended.1 _ 0 _ _ (by decide),
   timestamp_amended.2.1 _ 0 _ (by decide)⟩

/-! ## Per-message failure isolation (C8)

`parse_interac_email` is one `try`/`except` returning `None` on any internal
failure; `main` appends only truthy results and continues
(src/automation/sync_robot.py lines 48-129 and 166-169;
src/pages/6_Payment_Sync.py lines 115-199 and 252-256).  The caught
exception is modelled as `Option`: a missing body payload or internal
timestamp yields `none` for that one message. -/

/-- A raw Gmail message as the parser consumes it: headers, the decoded body
data when present, and the internal delivery timestamp when present. -/
structure RawMsg where
  headers : List (Str × Str)
  bodyData : Option Str
  internalMs : Option Nat

/-- Header lookup as the robot's loop performs it (last match wins, default
when absent). -/
def headerOr (nm dflt : Str) (hs : List (Str × Str)) : Str :=
  hs.foldl (fun acc h => if h.1 = nm then h.2 else acc) dflt

/-- The robot's `parse_interac_email`: `None` when the payload lacks body
data or the internal timestamp (the `except` branch), otherwise the parsed
record. -/
def robotParse (m : RawMsg) : Option Payment :=
  match m.bodyData, m.internalMs with
  | some body, some ms =>
    some ⟨robotDate ms,
          extract_sender body (headerOr "Subject".data "Unknown".data m.headers),
          parse_amount body⟩
  | _, _ => none

/-- The batch loop: `for msg in messages: p = parse(...); if p: append`. -/
def robotBatch (msgs : List RawMsg) : List Payment := msgs.filterMap robotParse

/-- Claim C8: a message whose parse fails contributes nothing and the rest
of the batch is processed exactly as if it were absent; a message whose
parse succeeds contributes exactly its record in position. -/
theorem parse_failure_isolated :
    (∀ (pre : List RawMsg) (m : RawMsg) (post : List RawMsg),
        robotParse m = none →
        robotBatch (pre ++ m :: post) = robotBatch (pre ++ post)) ∧
    (∀ (pre : List RawMsg) (m : RawMsg) (post : List RawMsg) (r : Payment),
        robotParse m = some r →
        robotBatch (pre ++ m :: post) = robotBatch pre ++ r :: robotBatch post) := by
  constructor
  · intro pre m post h
    simp [robotBatch, List.filterMap_append, List.filterMap_cons, h]
  · intro pre m post r h
    simp [robotBatch, List.filterMap_append, List.filterMap_cons, h]

/-- Claim C8 (witness): a malformed message (no body payload) in front of a
well-formed one is skipped and the batch continues. -/
theorem parse_failure_witness :
    robotBatch [⟨[], none, none⟩,
                ⟨[], some "You received $5.00 from Al and b".data, some 0⟩]
      = robotBatch [⟨[], some "You received $5.00 from Al and b".data, some 0⟩] :=
  parse_failure_isolated.1 [] _ _ rfl

end PaySync
